import Mathlib

/-!
Shallow embedding of the workflow core of the Build-Personal-AI-Employee
repository, covering:

* `src/tools/ralph_loop_runner.py` — the `RalphWiggumLoop` class: frontmatter
  parsing, task classification, workflow derivation, the per-stage state
  machine `execute_task`, the per-iteration scheduler `run_iteration`, the
  bounded driver `run`, and the CLI exit code of `main`;
* `src/utils/error_recovery.py` — `ErrorRecovery.calculate_delay`,
  `ErrorRecovery.retry_sync` and `ErrorRecovery.log_error` (modelled as an
  explicit channel of written log records), together with the watchers' own
  `retry_with_backoff` helper (`src/watchers/gmail_watcher.py` and the other
  watchers, which all duplicate the same function);
* `src/utils/audit_logger.py` — `AuditLogger.log` and
  `AuditLogger.get_logs_for_date_range` over a date-partitioned store.

Python side effects are made explicit: filesystem directories become lists of
files inside a `LoopState`, audit/error logging becomes appended records,
`time.sleep` becomes a recorded delay, and `datetime.now` values are passed in
as parameters.  Machine integers do not occur (delays and counters are small
Python ints, modelled as `Nat`).
-/

namespace Ralph

/-! ## Small string helpers (Python `in`, `str.strip`, `pathlib.Path.stem`) -/

/-- Bool test that `needle` occurs inside `hay` as a contiguous sublist;
models Python's substring operator `needle in hay` after `String.toList`. -/
def infix_of (needle : List Char) : List Char → Bool
  | [] => needle.isEmpty
  | c :: t => needle.isPrefixOf (c :: t) || infix_of needle t

/-- Python `needle in hay` on strings (substring containment). -/
def contains_sub (hay needle : String) : Bool :=
  infix_of needle.toList hay.toList

/-- Python `s.startswith(pre)`. -/
def py_startswith (s pre : String) : Bool :=
  pre.toList.isPrefixOf s.toList

/-- Python `s.endswith(post)`. -/
def py_endswith (s post : String) : Bool :=
  post.toList.reverse.isPrefixOf s.toList.reverse

/-- Python `s.strip()` with no argument: remove leading and trailing
whitespace. -/
def py_strip (s : String) : String :=
  String.mk (((s.toList.dropWhile Char.isWhitespace).reverse.dropWhile
    Char.isWhitespace).reverse)

/-- Python `s.lower()` (ASCII case folding suffices for the keyword sets
involved). -/
def py_lower (s : String) : String :=
  String.mk (s.toList.map Char.toLower)

/-- Split a character list at every occurrence of `sep`; Python
`s.split(sep)` for a one-character separator (`''.split` gives `['']`). -/
def split_char (sep : Char) : List Char → List (List Char)
  | [] => [[]]
  | c :: t =>
      let r := split_char sep t
      if c == sep then [] :: r
      else
        match r with
        | [] => [[c]]
        | h :: t' => (c :: h) :: t'

/-- Python `s.split('\n')`. -/
def py_split_lines (s : String) : List String :=
  (split_char (Char.ofNat 10) s.toList).map String.mk

/-- Quote characters stripped by `value.strip('"\'')` in `_parse_frontmatter`:
a double quote or a single quote. -/
def is_quote (c : Char) : Bool :=
  c == '"' || c == Char.ofNat 39

/-- Python `s.strip('"\'')`: remove every leading and every trailing character
that is a single or double quote. -/
def strip_quotes (s : String) : String :=
  String.mk ((((s.toList.dropWhile is_quote).reverse).dropWhile is_quote).reverse)

/-- Python `pathlib.Path(name).stem`: the file name with its last suffix
removed.  pathlib takes the suffix to start at the last dot, provided that dot
is neither the first nor the last character of the name. -/
def path_stem (name : String) : String :=
  let cs := name.toList
  match cs.reverse.findIdx? (fun c => c == '.') with
  | none => name
  | some j =>
      let i := cs.length - 1 - j
      if 0 < i ∧ 0 < j then String.mk (cs.take i) else name

/-! ## Glob pattern matching

`_check_draft_created` and `_check_approval_status` call
`pathlib.Path.glob(f"*{stem}*")`.  pathlib compiles the pattern with
`fnmatch.translate` and does not hide dot-files, so a directory entry matches
exactly when the `fnmatch` pattern `*stem*` matches its name.  `glob_match`
implements `fnmatch` matching for the wildcards `*` (any, possibly empty, run
of characters) and `?` (any single character); every other pattern character
matches itself literally.  (`[...]` character classes are not modelled; the
theorems that rely on `glob_match` assume the stem contains no `*`, `?` or
`[`, so on their inputs `glob_match` agrees with `fnmatch`.) -/

/-- Match an `fnmatch`-style pattern (characters `*` and `?` special) against
a name, both as character lists: `*` matches any (possibly empty) run of
characters — i.e. the rest of the pattern must match some suffix of the
name — and `?` matches exactly one character. -/
def glob_match : List Char → List Char → Bool
  | [], s => s.isEmpty
  | p :: ps', s =>
      if p == '*' then s.tails.any (fun t => glob_match ps' t)
      else
        match s with
        | [] => false
        | c :: s' => (p == '?' || p == c) && glob_match ps' s'

/-- Characters that `fnmatch` treats literally (no wildcard meaning). -/
def glob_literal (c : Char) : Bool :=
  !(c == '*' || c == '?' || c == '[')

/-! ## Frontmatter parsing (`RalphWiggumLoop._parse_frontmatter`) -/

/-- Index of the first occurrence of `needle` in `hay`, scanning left to
right; models how `str.split(sep, ...)` locates its next separator. -/
def find_sub (needle : List Char) : List Char → Option Nat
  | [] => if needle.isEmpty then some 0 else none
  | c :: t =>
      if needle.isPrefixOf (c :: t) then some 0
      else (find_sub needle t).map (· + 1)

/-- For a `content` that starts with `---`: the text strictly between the
opening `---` and the next occurrence of `---`, or everything after the
opening `---` when no second delimiter exists.  This is `parts[1]` of Python's
`content.split('---', 2)`. -/
def frontmatter_body (content : String) : String :=
  let rest := content.toList.drop 3
  match find_sub "---".toList rest with
  | none => String.mk rest
  | some i => String.mk (rest.take i)

/-- Python `line.split(':', 1)` guarded by `':' in line`: `none` when the line
has no colon, otherwise the text before and after the first colon. -/
def split_colon_1 (line : String) : Option (String × String) :=
  match find_sub [':'] line.toList with
  | none => none
  | some i => some (String.mk (line.toList.take i), String.mk (line.toList.drop (i + 1)))

/-- Python dict assignment `md[k] = v`: overwrite the value at an existing
key in place, else append the new pair. -/
def dict_insert (md : List (String × String)) (k v : String) : List (String × String) :=
  if md.any (fun p => p.1 == k) then
    md.map (fun p => if p.1 == k then (k, v) else p)
  else md ++ [(k, v)]

/-- Python `md.get(k, dflt)`. -/
def dict_get (md : List (String × String)) (k dflt : String) : String :=
  match md.find? (fun p => p.1 == k) with
  | some p => p.2
  | none => dflt

/-- `RalphWiggumLoop._parse_frontmatter`: if the content starts with `---`,
split off the region up to the next `---`, and turn every colon-bearing line
of it into a key/value pair, trimming whitespace and stripping surrounding
quotes from the value; otherwise return the empty dictionary.  The Python
`try/except` around the body can never fire on the string operations used, and
the function is structurally total here. -/
def parse_frontmatter (content : String) : List (String × String) :=
  if py_startswith content "---" then
    (py_split_lines (py_strip (frontmatter_body content))).foldl
      (fun md line =>
        match split_colon_1 line with
        | none => md
        | some (k, v) => dict_insert md (py_strip k) (strip_quotes (py_strip v)))
      []
  else []

/-! ## Task classification (`_determine_task_type`, `_is_multi_step_task`,
`_build_workflow`, `_trigger_skill`'s skill table) -/

/-- `RalphWiggumLoop._determine_task_type`: an explicit non-empty metadata
`type` wins verbatim; otherwise keyword classification of the (already
lowercased) content in fixed priority order. -/
def determine_task_type (content : String) (metadata : List (String × String)) : String :=
  let task_type := dict_get metadata "type" ""
  if task_type ≠ "" then task_type
  else if ["sales", "client", "project"].any (fun kw => contains_sub content kw) then
    if contains_sub content "facebook" || contains_sub content "instagram" then
      "facebook_instagram_lead"
    else if contains_sub content "twitter" then "twitter_lead"
    else if contains_sub content "linkedin" then "linkedin_lead"
    else "social_media_lead"
  else if ["urgent", "invoice", "payment"].any (fun kw => contains_sub content kw) then
    "financial_task"
  else if ["meeting", "schedule", "calendar"].any (fun kw => contains_sub content kw) then
    "schedule_task"
  else "general_task"

/-- `RalphWiggumLoop._is_multi_step_task`: membership in the fixed allow-list
(the `metadata` argument of the Python function is unused there too). -/
def is_multi_step_task (task_type : String) (_metadata : List (String × String)) : Bool :=
  ["facebook_instagram_lead", "twitter_lead", "linkedin_lead", "social_media_lead",
    "email_response_required"].contains task_type

/-- The six workflow stages, as in `RalphWiggumLoop.STAGES`. -/
inductive Stage where
  | analysis
  | skill_execution
  | hitl_approval
  | mcp_execution
  | audit_logging
  | completion
deriving DecidableEq, Repr

/-- The stage index dictionary `RalphWiggumLoop.STAGES`. -/
def STAGES : Stage → Nat
  | .analysis => 1
  | .skill_execution => 2
  | .hitl_approval => 3
  | .mcp_execution => 4
  | .audit_logging => 5
  | .completion => 6

/-- The stage name strings used in the Python workflow lists and history
records. -/
def stage_name : Stage → String
  | .analysis => "analysis"
  | .skill_execution => "skill_execution"
  | .hitl_approval => "hitl_approval"
  | .mcp_execution => "mcp_execution"
  | .audit_logging => "audit_logging"
  | .completion => "completion"

/-- `RalphWiggumLoop._build_workflow`: substring checks on the task type, in
source order (`lead`/`social` first, then `financial`, then `schedule`, else
the default); the `metadata` argument is unused in the source as well. -/
def build_workflow (task_type : String) (_metadata : List (String × String)) : List Stage :=
  if ["lead", "social"].any (fun w => contains_sub task_type w) then
    [.analysis, .skill_execution, .hitl_approval, .mcp_execution, .audit_logging, .completion]
  else if contains_sub task_type "financial" then [.analysis, .skill_execution, .completion]
  else if contains_sub task_type "schedule" then [.analysis, .mcp_execution, .completion]
  else [.analysis, .completion]

/-- The `skills_to_trigger` table of `RalphWiggumLoop._trigger_skill`
(`dict.get`: `none` for unmapped task types). -/
def skills_to_trigger (task_type : String) : Option String :=
  if task_type = "facebook_instagram_lead" then some "social_summary_generator"
  else if task_type = "twitter_lead" then some "twitter_post_generator"
  else if task_type = "linkedin_lead" then some "auto_linkedin_poster"
  else if task_type = "social_media_lead" then some "social_summary_generator"
  else none

/-! ## Error recovery (`src/utils/error_recovery.py`)

`ErrorRecovery.log_error` appends a formatted block to the per-component file
`Logs/error_{component}_{date}.log`; a call is modelled as one `ErrorLogRec`
carrying the component (which selects that file) and the context dictionary
keys the retry helpers pass (`function`, `attempt`, `final`).  `time.sleep`
and the `print` of each retry notice are modelled as recorded values.  A
fallible Python operation becomes `op : Nat → Except ε α`, giving the outcome
of the call made on (0-indexed) attempt `a`. -/

/-- Retry configuration held on an `ErrorRecovery` instance
(`max_retries`, `base_delay`, `max_delay`, `exponential_base`). -/
structure RecoveryConfig where
  max_retries : Nat
  base_delay : Nat
  max_delay : Nat
  exponential_base : Nat
deriving DecidableEq, Repr

/-- The values set in `ErrorRecovery.__init__`: 3 retries, base delay 1 s,
max delay 60 s, exponential base 2. -/
def default_recovery : RecoveryConfig := ⟨3, 1, 60, 2⟩

/-- `ErrorRecovery.calculate_delay`: exponential backoff capped at
`max_delay`. -/
def calculate_delay (cfg : RecoveryConfig) (attempt : Nat) : Nat :=
  min (cfg.base_delay * cfg.exponential_base ^ attempt) cfg.max_delay

/-- One call to `ErrorRecovery.log_error`, as made by a retry helper:
the component name (selecting the per-component error log file), the
`function` context entry, and either an `attempt` number or the `final`
marker from the context dictionary. -/
structure ErrorLogRec where
  component : String
  func : String
  attempt : Option Nat
  final : Bool
deriving DecidableEq, Repr

/-- Observable outcome of one `ErrorRecovery.retry_sync` invocation: the
returned value or re-raised exception, the backoff delays slept, the attempt
numbers printed in retry notices, and the records written to the
per-component error log via `ErrorRecovery.log_error` (the source of
`retry_sync` contains no `log_error` call, so the body below never extends
`error_log`). -/
structure RetryOutcome (ε α : Type) where
  result : Except ε α
  sleeps : List Nat
  retry_prints : List Nat
  error_log : List ErrorLogRec

/-- Loop body of `ErrorRecovery.retry_sync`'s wrapper: `attempt` is the
current 0-indexed attempt, `remaining` the number of further attempts allowed
after this one (`remaining = max_retries - attempt`, so `attempt <
max_retries` exactly when `remaining > 0`). -/
def retry_sync_go (cfg : RecoveryConfig) (base_delay : Nat) (op : Nat → Except ε α) :
    Nat → Nat → RetryOutcome ε α
  | attempt, remaining =>
    match op attempt with
    | .ok v => ⟨.ok v, [], [], []⟩
    | .error e =>
        match remaining with
        | 0 => ⟨.error e, [], [], []⟩
        | r + 1 =>
            let d := min (base_delay * cfg.exponential_base ^ attempt) cfg.max_delay
            let rest := retry_sync_go cfg base_delay op (attempt + 1) r
            ⟨rest.result, d :: rest.sleeps, (attempt + 1) :: rest.retry_prints, rest.error_log⟩

/-- `ErrorRecovery.retry_sync` applied to `op`: up to `max_retries + 1`
attempts, sleeping `min(base_delay * exponential_base ** attempt, max_delay)`
between failures, and re-raising the last exception once retries are
exhausted.  (`retry_async` has the identical structure with `asyncio.sleep`.) -/
def retry_sync (cfg : RecoveryConfig) (max_retries base_delay : Nat)
    (op : Nat → Except ε α) : RetryOutcome ε α :=
  retry_sync_go cfg base_delay op 0 max_retries

/-- Observable outcome of a watcher's `retry_with_backoff` call: the result
(`none` when all attempts failed — the watcher helper swallows the final
exception and returns `None`), the delays slept, and the `log_error` records
written. -/
structure BackoffOutcome (ε α : Type) where
  result : Option α
  sleeps : List Nat
  error_log : List ErrorLogRec

/-- Loop body of the watchers' `retry_with_backoff` (identical in
`gmail_watcher.py`, `twitter_watcher.py`, `linkedin_watcher.py`,
`whatsapp_watcher.py`, `facebook_instagram_watcher.py`): every non-final
failed attempt is logged with context `{'function': ..., 'attempt': attempt + 1}`
before sleeping, and the final failure with `{'function': ..., 'final': True}`. -/
def retry_backoff_go (component func_name : String) (base_delay max_delay : Nat)
    (op : Nat → Except ε α) : Nat → Nat → BackoffOutcome ε α
  | attempt, remaining =>
    match op attempt with
    | .ok v => ⟨some v, [], []⟩
    | .error _ =>
        match remaining with
        | 0 => ⟨none, [], [⟨component, func_name, none, true⟩]⟩
        | r + 1 =>
            let d := min (base_delay * 2 ^ attempt) max_delay
            let rest := retry_backoff_go component func_name base_delay max_delay op (attempt + 1) r
            ⟨rest.result, d :: rest.sleeps,
              ⟨component, func_name, some (attempt + 1), false⟩ :: rest.error_log⟩

/-- The watchers' `retry_with_backoff(func)` with explicit `max_retries`,
`base_delay` and the instance's `max_delay`. -/
def retry_with_backoff (component func_name : String)
    (max_retries base_delay max_delay : Nat) (op : Nat → Except ε α) : BackoffOutcome ε α :=
  retry_backoff_go component func_name base_delay max_delay op 0 max_retries

/-! ## Audit logger (`src/utils/audit_logger.py`)

One JSON file `Logs/audit_{YYYYMMDD}.json` per calendar day; days are
modelled as `Nat` day numbers (both the file name date and the entry's
`date` field come from the same `datetime.now()`).  `AuditLogger.log` reads
the day's file, appends the new entry and rewrites the file; the store is a
function from day to that file's entry list. -/

/-- One audit log entry as built by `AuditLogger.log` (the `metadata` key is
only present when supplied). -/
structure AuditEntry where
  timestamp : String
  date : Nat
  action_type : String
  actor : String
  target : String
  parameters : List (String × String)
  approval_status : String
  result : String
  message : String
  metadata : Option (List (String × String))
deriving DecidableEq, Repr

/-- The arguments of one `AuditLogger.log` call (with the call's
`datetime.now()` timestamp made explicit; optional arguments keep their
Python defaults via `Option`). -/
structure LogArgs where
  timestamp : String
  action_type : String
  target : String
  parameters : Option (List (String × String))
  approval_status : String
  result : String
  actor : Option String
  message : Option String
  metadata : Option (List (String × String))
deriving DecidableEq, Repr

/-- Date-partitioned audit store: day number to the entries of that day's
`audit_{date}.json` file. -/
def AuditStore := Nat → List AuditEntry

/-- A store with no audit files yet. -/
def empty_store : AuditStore := fun _ => []

/-- The entry dict `AuditLogger.log` builds: defaults `actor or
self.default_actor`, `parameters or {}`, `message or ""`. -/
def mk_entry (today : Nat) (a : LogArgs) : AuditEntry :=
  ⟨a.timestamp, today, a.action_type, a.actor.getD "AI_Employee_System", a.target,
    a.parameters.getD [], a.approval_status, a.result, a.message.getD "", a.metadata⟩

/-- `AuditLogger.log` on day `today`: read the day's entries, append the new
entry, write the file back; other days' files are untouched. -/
def audit_log (store : AuditStore) (today : Nat) (a : LogArgs) : AuditStore :=
  fun d => if d = today then store d ++ [mk_entry today a] else store d

/-- Sort key of `get_logs_for_date_range`: ascending `timestamp` (Python
sorts the merged list by the entry's `timestamp` string). -/
def ts_le (x y : AuditEntry) : Prop := x.timestamp ≤ y.timestamp

instance : DecidableRel ts_le :=
  fun x y => inferInstanceAs (Decidable (x.timestamp ≤ y.timestamp))

instance : IsTotal AuditEntry ts_le := ⟨fun a b => le_total a.timestamp b.timestamp⟩

instance : IsTrans AuditEntry ts_le := ⟨fun _ _ _ h₁ h₂ => le_trans h₁ h₂⟩

/-- `AuditLogger.get_logs_for_date_range`: walk the days from `start_d` to
`end_d` inclusive, concatenate each existing day file's entries, and sort the
result by timestamp (Python `list.sort` is a stable sort; so is
`List.insertionSort`). -/
def get_logs_for_date_range (store : AuditStore) (start_d end_d : Nat) : List AuditEntry :=
  List.insertionSort ts_le
    (((List.range (end_d + 1 - start_d)).map (fun i => store (start_d + i))).flatten)

/-! ## The Ralph Wiggum loop state (`src/tools/ralph_loop_runner.py`)

The four queue directories become lists of files; the loop's audit logging
(`RalphWiggumLoop.log_audit`, which forwards to `AuditLogger.log`) becomes an
appended trail of records in call order, and `task_history` an appended trail
of history records (their `datetime.now()` timestamps are not tracked).  A
file is a name plus its text content. -/

/-- One file of a queue directory. -/
structure MFile where
  name : String
  content : String
deriving DecidableEq, Repr

/-- One `RalphWiggumLoop.log_audit` call (the fields it forwards to
`AuditLogger.log`). -/
structure AuditRec where
  action_type : String
  target : String
  result : String
  message : String
  parameters : List (String × String)
deriving DecidableEq, Repr

/-- One `task_history` record (`file`, `stage`, `result`; the timestamp is a
wall-clock value and is not tracked). -/
structure HistRec where
  file : String
  stage : String
  result : String
deriving DecidableEq, Repr

/-- The queue directories an item can live in. -/
inductive DirTag where
  | needs_action
  | pending_approval
  | approved
  | done
deriving DecidableEq, Repr

/-- The mutable state of a `RalphWiggumLoop` run: the four directories, the
audit trail, the task history and the iteration counter. -/
structure LoopState where
  needs_action : List MFile
  pending_approval : List MFile
  approved : List MFile
  done : List MFile
  audit : List AuditRec
  history : List HistRec
  iteration_count : Nat
deriving DecidableEq, Repr

/-- The task analysis dict built by `task_analyzer` (the fields consumed by
later stages; `content_preview`, `priority`, `platform` and `keyword` are
only echoed in output and are not tracked). -/
structure Task where
  dir : DirTag
  file_name : String
  task_type : String
  is_multi_step : Bool
  workflow : List Stage
  current_stage : Stage
  metadata : List (String × String)
deriving DecidableEq, Repr

/-- `RalphWiggumLoop.log_audit`: forward one entry to the audit logger. -/
def log_audit (s : LoopState) (action_type target result message : String)
    (parameters : List (String × String)) : LoopState :=
  {s with audit := s.audit ++ [⟨action_type, target, result, message, parameters⟩]}

/-- Append one `task_history` record. -/
def log_history (s : LoopState) (file stage result : String) : LoopState :=
  {s with history := s.history ++ [⟨file, stage, result⟩]}

/-- The files of one directory. -/
def dir_files (s : LoopState) : DirTag → List MFile
  | .needs_action => s.needs_action
  | .pending_approval => s.pending_approval
  | .approved => s.approved
  | .done => s.done

/-- Replace the files of one directory. -/
def set_dir (s : LoopState) (d : DirTag) (l : List MFile) : LoopState :=
  match d with
  | .needs_action => {s with needs_action := l}
  | .pending_approval => {s with pending_approval := l}
  | .approved => {s with approved := l}
  | .done => {s with done := l}

/-- Directory listings are returned in `sorted(...)` order; file paths within
one directory sort by file name. -/
def sort_files (l : List MFile) : List MFile :=
  List.insertionSort (fun a b => a.name ≤ b.name) l

instance : DecidableRel (fun (a b : MFile) => a.name ≤ b.name) :=
  fun a b => inferInstanceAs (Decidable (a.name ≤ b.name))

/-- `RalphWiggumLoop.scan_needs_action`: every non-hidden file of
`Needs_Action`, sorted. -/
def scan_needs_action (s : LoopState) : List MFile :=
  sort_files (s.needs_action.filter (fun f => !py_startswith f.name "."))

/-- `RalphWiggumLoop.scan_pending_approval`: the `*.md` files of
`Pending_Approval`, sorted. -/
def scan_pending_approval (s : LoopState) : List MFile :=
  sort_files (s.pending_approval.filter (fun f => py_endswith f.name ".md"))

/-- `RalphWiggumLoop.scan_approved`: the `*.md` files of `Approved`, sorted. -/
def scan_approved (s : LoopState) : List MFile :=
  sort_files (s.approved.filter (fun f => py_endswith f.name ".md"))

/-- Does any file of `dirFiles` match the glob pattern `*stem*`, where `stem`
is the stem of `fname`?  This is the `pathlib.Path.glob(f"*{stem}*")` check
shared by `_check_draft_created` and `_check_approval_status`. -/
def glob_contains_stem (dirFiles : List MFile) (fname : String) : Bool :=
  dirFiles.any (fun g => glob_match ('*' :: ((path_stem fname).toList ++ ['*'])) g.name.toList)

/-- `RalphWiggumLoop._check_draft_created`: some file of `Pending_Approval`
matches `*stem*`. -/
def check_draft_created (s : LoopState) (t : Task) : Bool :=
  glob_contains_stem s.pending_approval t.file_name

/-- `RalphWiggumLoop._check_approval_status`: some file of `Approved`
matches `*stem*`. -/
def check_approval_status (s : LoopState) (t : Task) : Bool :=
  glob_contains_stem s.approved t.file_name

/-- The markdown body `_simulate_skill_execution` writes (wall-clock
timestamps elided). -/
def draft_content (skill source_name : String) : String :=
  "---\ntype: skill_draft\nsource_file: " ++ source_name ++ "\nskill: " ++ skill ++
    "\nstatus: pending_approval\nrequires_hitl: true\n---\n\n# Draft Generated by " ++ skill ++
    "\n\n**Source:** " ++ source_name ++ "\n"

/-- `RalphWiggumLoop._simulate_skill_execution`: write
`Pending_Approval/draft_<name>` (an `open(..., 'w')` overwrites an existing
file of that name). -/
def simulate_skill_execution (s : LoopState) (skill f_name : String) : LoopState :=
  let draft : MFile := ⟨"draft_" ++ f_name, draft_content skill f_name⟩
  if s.pending_approval.any (fun g => g.name == draft.name) then
    {s with pending_approval :=
      s.pending_approval.map (fun g => if g.name == draft.name then draft else g)}
  else {s with pending_approval := s.pending_approval ++ [draft]}

/-- `RalphWiggumLoop._move_to_done`: if the file still exists in its
directory, move it to `Done`. -/
def move_to_done (s : LoopState) (d : DirTag) (n : String) : LoopState :=
  match (dir_files s d).find? (fun f => f.name == n) with
  | none => s
  | some f =>
      let s := set_dir s d ((dir_files s d).eraseP (fun g => g.name == n))
      {s with done := s.done ++ [f]}

/-- `RalphWiggumLoop.task_analyzer` on a readable file: parse frontmatter,
classify, derive the workflow, start at the `analysis` stage, and log a
`task_analyzed` audit entry. -/
def task_analyzer (d : DirTag) (f : MFile) (s : LoopState) : Task × LoopState :=
  let metadata := parse_frontmatter f.content
  let task_type := determine_task_type (py_lower f.content) metadata
  let multi := is_multi_step_task task_type metadata
  let workflow := build_workflow task_type metadata
  let task : Task := ⟨d, f.name, task_type, multi, workflow, .analysis, metadata⟩
  let s := log_audit s "task_analyzed" f.name "success"
      ("Analyzed " ++ f.name ++ ": " ++ task_type)
      [("task_type", task_type), ("is_multi_step", toString multi),
        ("workflow_stages", toString workflow.length)]
  (task, s)

/-- `_execute_analysis_stage`: record history, move to `skill_execution`,
never complete. -/
def execute_analysis_stage (t : Task) (s : LoopState) : Bool × Task × LoopState :=
  (false, {t with current_stage := .skill_execution},
    log_history s t.file_name "analysis" "complete")

/-- `_execute_skill_stage`: trigger the mapped skill (which simulates a draft
into `Pending_Approval`); if a draft for this item is then found, move to
`hitl_approval` with a history record, else (no draft, or no mapped skill) go
straight to `completion`. -/
def execute_skill_stage (t : Task) (s : LoopState) : Bool × Task × LoopState :=
  match skills_to_trigger t.task_type with
  | some skill =>
      let s := simulate_skill_execution s skill t.file_name
      if check_draft_created s t then
        (false, {t with current_stage := .hitl_approval},
          log_history s t.file_name "skill_execution" "draft_created")
      else (false, {t with current_stage := .completion}, s)
  | none => (false, {t with current_stage := .completion}, s)

/-- `_execute_hitl_stage`: if a matching file is in `Approved`, move to
`mcp_execution` (history + `hitl_approved` audit entry) and continue; else
record a `pending` history entry, keep the stage, and return `True` (the
Python function returns `True` here even though its comment says the task is
not complete — the value feeds `tasks_completed` in `run_iteration`). -/
def execute_hitl_stage (t : Task) (s : LoopState) : Bool × Task × LoopState :=
  if check_approval_status s t then
    let s := log_history s t.file_name "hitl_approval" "approved"
    let s := log_audit s "hitl_approved" t.file_name "success" "HITL approval granted" []
    (false, {t with current_stage := .mcp_execution}, s)
  else (true, t, log_history s t.file_name "hitl_approval" "pending")

/-- `RalphWiggumLoop._trigger_mcp`: simulated, always succeeds. -/
def trigger_mcp (_t : Task) : Bool := true

/-- `_execute_mcp_stage`: fire the (simulated) MCP trigger and move to
`audit_logging` whether or not it ran. -/
def execute_mcp_stage (t : Task) (s : LoopState) : Bool × Task × LoopState :=
  if trigger_mcp t then
    (false, {t with current_stage := .audit_logging},
      log_history s t.file_name "mcp_execution" "success")
  else (false, {t with current_stage := .audit_logging}, s)

/-- `_execute_audit_stage`: log a `task_completed` audit entry, record
history, move to `completion`. -/
def execute_audit_stage (t : Task) (s : LoopState) : Bool × Task × LoopState :=
  let s := log_audit s "task_completed" t.file_name "success"
      ("Task completed: " ++ t.file_name)
      [("task_type", t.task_type), ("workflow_stages", toString t.workflow.length)]
  (false, {t with current_stage := .completion},
    log_history s t.file_name "audit_logging" "logged")

/-- `_execute_completion_stage`: move the file to `Done`, log a
`task_finalized` audit entry and a terminal history record, and report the
task complete. -/
def execute_completion_stage (t : Task) (s : LoopState) : Bool × Task × LoopState :=
  let s := move_to_done s t.dir t.file_name
  let s := log_audit s "task_finalized" t.file_name "success"
      ("Moved to Done: " ++ t.file_name) []
  (true, t, log_history s t.file_name "completion" "TASK_COMPLETE")

/-- `RalphWiggumLoop.execute_task`: dispatch on `current_stage` and run
exactly one stage handler (each call advances at most one stage; the updated
task dict and state are returned alongside the completion flag). -/
def execute_task (t : Task) (s : LoopState) : Bool × Task × LoopState :=
  match t.current_stage with
  | .analysis => execute_analysis_stage t s
  | .skill_execution => execute_skill_stage t s
  | .hitl_approval => execute_hitl_stage t s
  | .mcp_execution => execute_mcp_stage t s
  | .audit_logging => execute_audit_stage t s
  | .completion => execute_completion_stage t s

/-- The `files_to_process` list built at the top of `run_iteration`: approved
files first (forced stage `mcp_execution`), then pending-approval files
(forced stage `hitl_approval`), then new files (forced stage `analysis`). -/
def files_to_process (s : LoopState) : List (DirTag × MFile × Stage) :=
  (scan_approved s).map (fun f => (DirTag.approved, f, Stage.mcp_execution)) ++
    (scan_pending_approval s).map (fun f => (DirTag.pending_approval, f, Stage.hitl_approval)) ++
    (scan_needs_action s).map (fun f => (DirTag.needs_action, f, Stage.analysis))

/-- Process one discovered file inside `run_iteration`: analyze it, force the
scan-implied stage, run one `execute_task` advance, and bump `tasks_pending`
when the advance reported the task incomplete. -/
def process_file (acc : Nat × LoopState) (item : DirTag × MFile × Stage) : Nat × LoopState :=
  let a := task_analyzer item.1 item.2.1 acc.2
  let r := execute_task {a.1 with current_stage := item.2.2} a.2
  (if r.1 then acc.1 else acc.1 + 1, r.2.2)

/-- `RalphWiggumLoop.run_iteration`, with the internal `tasks_pending`
counter exposed as the middle component: bump the iteration counter, scan the
three directories in priority order, return `True` immediately when nothing
was found, else process every file and declare the iteration complete iff
`tasks_pending == 0` and the `Needs_Action` and `Pending_Approval` scans are
now empty. -/
def run_iteration_aux (s : LoopState) : Bool × Nat × LoopState :=
  let s1 := {s with iteration_count := s.iteration_count + 1}
  if (files_to_process s1).isEmpty then (true, 0, s1)
  else
    let r := (files_to_process s1).foldl process_file (0, s1)
    (r.1 == 0 && (scan_needs_action r.2).isEmpty && (scan_pending_approval r.2).isEmpty,
      r.1, r.2)

/-- `RalphWiggumLoop.run_iteration` as called by `run`. -/
def run_iteration (s : LoopState) : Bool × LoopState :=
  ((run_iteration_aux s).1, (run_iteration_aux s).2.2)

/-- The `for i in range(max_iterations)` loop of `RalphWiggumLoop.run`:
stop with `True` at the first complete iteration, else exhaust the budget
with `False`. -/
def run_steps : Nat → LoopState → Bool × LoopState
  | 0, s => (false, s)
  | n + 1, s =>
      let r := run_iteration s
      if r.1 then (true, r.2) else run_steps n r.2

/-- `RalphWiggumLoop.run`: log the start entry, run up to `max_iterations`
iterations, and log either the `ralph_loop_completed`/`success` entry or the
`ralph_loop_incomplete`/`partial` entry before returning. -/
def run (max_iterations : Nat) (prompt : String) (s : LoopState) : Bool × LoopState :=
  let s := log_audit s "ralph_loop_started" "ralph_loop_runner" "success"
      "Ralph Wiggum Loop started"
      [("max_iterations", toString max_iterations), ("prompt", prompt)]
  let r := run_steps max_iterations s
  if r.1 then
    (true, log_audit r.2 "ralph_loop_completed" "ralph_loop_runner" "success"
      "Ralph Wiggum Loop completed"
      [("iterations_run", toString r.2.iteration_count),
        ("tasks_processed", toString r.2.history.length)])
  else
    (false, log_audit r.2 "ralph_loop_incomplete" "ralph_loop_runner" "partial"
      ("Loop ended after " ++ toString max_iterations ++ " iterations")
      [("iterations_run", toString r.2.iteration_count),
        ("tasks_processed", toString r.2.history.length)])

/-- The exit code of `main`: `sys.exit(0 if success else 1)`. -/
def main_exit_code (success : Bool) : Nat :=
  if success then 0 else 1

/-! ## Claim-side definitions and witness fixtures -/

/-- The keyword decision procedure exactly as the specification words it
(claim C5), for refinement comparison with `determine_task_type`:
sales/client/project content gives a lead type refined by platform keyword
(facebook/instagram, then twitter, then linkedin, else the generic
`social_media_lead`); else urgent/invoice/payment gives `financial_task`;
else meeting/schedule/calendar gives `schedule_task`; else `general_task`. -/
def spec_keyword_classify (content : String) : String :=
  if contains_sub content "sales" || contains_sub content "client"
      || contains_sub content "project" then
    if contains_sub content "facebook" || contains_sub content "instagram" then
      "facebook_instagram_lead"
    else if contains_sub content "twitter" then "twitter_lead"
    else if contains_sub content "linkedin" then "linkedin_lead"
    else "social_media_lead"
  else if contains_sub content "urgent" || contains_sub content "invoice"
      || contains_sub content "payment" then "financial_task"
  else if contains_sub content "meeting" || contains_sub content "schedule"
      || contains_sub content "calendar" then "schedule_task"
  else "general_task"

/-- A string carries no surrounding quotes: neither its first nor its last
character is a single or double quote. -/
def no_surrounding_quotes (s : String) : Bool :=
  (match s.toList.head? with
    | none => true
    | some c => !is_quote c) &&
  (match s.toList.getLast? with
    | none => true
    | some c => !is_quote c)

/-- Witness fixture: a loop state whose only content is a draft sitting in
`Pending_Approval` with no matching file in `Approved` — an item stuck
awaiting HITL approval. -/
def stuck_state : LoopState :=
  ⟨[], [⟨"draft_task.md", "sales client draft"⟩], [], [], [], [], 0⟩

/-- Witness fixture: a task whose file is `task1.md` (stem `task1`). -/
def task1 : Task :=
  ⟨DirTag.pending_approval, "task1.md", "twitter_lead", true,
    build_workflow "twitter_lead" [], Stage.hitl_approval, []⟩

/-- Witness fixture: a state whose `Approved` directory holds a differently
named file whose name merely contains the stem `task1`. -/
def overlap_state : LoopState :=
  ⟨[], [], [⟨"reply_task1_v2.md", "approved reply"⟩], [], [], [], 0⟩

/-! ## Glob matching lemmas -/

/-- A pattern starting with `*` matches `t` iff the remaining pattern matches
some suffix of `t`. -/
theorem glob_match_star (ps : List Char) (t : List Char) :
    glob_match ('*' :: ps) t = true ↔ ∃ t₂, t₂ <:+ t ∧ glob_match ps t₂ = true := by
  simp only [glob_match, beq_self_eq_true, if_pos, List.any_eq_true, List.mem_tails]

/-- For a pattern `s*` whose head part `s` is wildcard-free, matching `t`
is exactly `s` being a prefix of `t`. -/
theorem glob_match_lit (s : List Char) (hs : s.all glob_literal = true) (t : List Char) :
    glob_match (s ++ ['*']) t = true ↔ s <+: t := by
  induction s generalizing t with
  | nil =>
      simp only [List.nil_append, List.nil_prefix, iff_true]
      rw [show (['*'] : List Char) = '*' :: [] from rfl, glob_match_star]
      exact ⟨[], List.nil_suffix, rfl⟩
  | cons a s' ih =>
      rw [List.all_cons, Bool.and_eq_true] at hs
      obtain ⟨h1, h2⟩ := hs
      have haS : (a == '*') = false := by
        simp only [glob_literal, Bool.not_eq_true', Bool.or_eq_false_iff] at h1
        exact h1.1.1
      have haQ : (a == '?') = false := by
        simp only [glob_literal, Bool.not_eq_true', Bool.or_eq_false_iff] at h1
        exact h1.1.2
      cases t with
      | nil => simp [glob_match, List.cons_append, haS, List.prefix_nil]
      | cons c t'' =>
          simp [glob_match, List.cons_append, haS, haQ, ih h2, List.cons_prefix_cons,
            beq_iff_eq]

/-- The pattern `*s*` with wildcard-free `s` matches exactly the names that
contain `s` as a contiguous substring. -/
theorem glob_match_star_lit_star (s : List Char) (hs : s.all glob_literal = true)
    (t : List Char) : glob_match ('*' :: (s ++ ['*'])) t = true ↔ s <:+: t := by
  rw [glob_match_star, List.infix_iff_prefix_suffix]
  constructor
  · rintro ⟨t₂, hsuf, hm⟩
    exact ⟨t₂, (glob_match_lit s hs t₂).mp hm, hsuf⟩
  · rintro ⟨t₂, hpre, hsuf⟩
    exact ⟨t₂, hsuf, (glob_match_lit s hs t₂).mpr hpre⟩

/-- C10: approval and draft detection match by filename-stem substring, not
exact name — `_check_approval_status` is true iff some file name in
`Approved` contains the item's stem as a substring, and
`_check_draft_created` likewise over `Pending_Approval` (for stems without
`fnmatch` wildcard characters, which is every ordinary file name); hence a
file of a different item whose name merely contains the stem counts as this
item's approval or draft. -/
theorem C10_stem_substring_matching (s : LoopState) (t : Task)
    (h : (path_stem t.file_name).toList.all glob_literal = true) :
    (check_approval_status s t = true ↔
      ∃ g ∈ s.approved, (path_stem t.file_name).toList <:+: g.name.toList) ∧
    (check_draft_created s t = true ↔
      ∃ g ∈ s.pending_approval, (path_stem t.file_name).toList <:+: g.name.toList) := by
  constructor <;>
    · simp only [check_approval_status, check_draft_created, glob_contains_stem,
        List.any_eq_true]
      exact exists_congr fun g =>
        and_congr_right fun _ => glob_match_star_lit_star _ h g.name.toList

/-- Witness for C10 at a concrete overlap: item `task1.md` (stem `task1`)
and an `Approved` directory holding only the differently named
`reply_task1_v2.md`, which counts as this item's approval. -/
theorem C10_stem_substring_witness :
    (path_stem task1.file_name).toList.all glob_literal = true ∧
    (check_approval_status overlap_state task1 = true ↔
      ∃ g ∈ overlap_state.approved,
        (path_stem task1.file_name).toList <:+: g.name.toList) ∧
    check_approval_status overlap_state task1 = true :=
  ⟨by decide, (C10_stem_substring_matching overlap_state task1 (by decide)).1, by decide⟩

/-! ## Task classification (claims C5, C6) -/

/-- C5: a non-empty metadata `type` is returned verbatim regardless of the
content, and without one the classifier equals the specification's keyword
decision procedure `spec_keyword_classify` (fixed first-match priority order,
platform refinement inside the lead branch). -/
theorem C5_classifier_refinement (content : String) (md : List (String × String)) :
    (dict_get md "type" "" ≠ "" → determine_task_type content md = dict_get md "type" "") ∧
    (dict_get md "type" "" = "" → determine_task_type content md = spec_keyword_classify content) := by
  constructor
  · intro h
    simp only [determine_task_type, if_pos h]
  · intro h
    simp only [determine_task_type, spec_keyword_classify, h, ne_eq, not_true_eq_false,
      if_false, List.any_cons, List.any_nil, Bool.or_false, Bool.or_assoc]

/-- Witness for C5: an explicit metadata `type` wins over lead keywords in
the body, and a metadata-free item classifies by its keywords (here `client`
with platform `twitter`). -/
theorem C5_classifier_witness :
    determine_task_type "urgent sales lead on twitter" [("type", "custom_type")] = "custom_type" ∧
    determine_task_type "we have a new client on twitter" [] = "twitter_lead" :=
  ⟨(C5_classifier_refinement "urgent sales lead on twitter" [("type", "custom_type")]).1
      (by decide),
    ((C5_classifier_refinement "we have a new client on twitter" []).2 (by decide)).trans
      (by decide)⟩

/-- C6: `_build_workflow` is a pure function of the task type, decided by
substring checks in fixed first-match order — lead/social types get the full
six-stage pipeline, then financial types get analysis/skill/completion, then
schedule types get analysis/mcp/completion, and everything else gets
analysis/completion. -/
theorem C6_workflow_by_task_type (t : String) (md : List (String × String)) :
    ((contains_sub t "lead" || contains_sub t "social") = true →
      build_workflow t md = [.analysis, .skill_execution, .hitl_approval, .mcp_execution,
        .audit_logging, .completion]) ∧
    ((contains_sub t "lead" || contains_sub t "social") = false →
      contains_sub t "financial" = true →
      build_workflow t md = [.analysis, .skill_execution, .completion]) ∧
    ((contains_sub t "lead" || contains_sub t "social") = false →
      contains_sub t "financial" = false →
      contains_sub t "schedule" = true →
      build_workflow t md = [.analysis, .mcp_execution, .completion]) ∧
    ((contains_sub t "lead" || contains_sub t "social") = false →
      contains_sub t "financial" = false →
      contains_sub t "schedule" = false →
      build_workflow t md = [.analysis, .completion]) := by
  refine ⟨fun h1 => ?_, fun h1 h2 => ?_, fun h1 h2 h3 => ?_, fun h1 h2 h3 => ?_⟩
  · simp only [build_workflow, List.any_cons, List.any_nil, Bool.or_false, h1, if_true]
  · simp only [build_workflow, List.any_cons, List.any_nil, Bool.or_false, h1, h2,
      Bool.false_eq_true, if_false, if_true]
  · simp only [build_workflow, List.any_cons, List.any_nil, Bool.or_false, h1, h2, h3,
      Bool.false_eq_true, if_false, if_true]
  · simp only [build_workflow, List.any_cons, List.any_nil, Bool.or_false, h1, h2, h3,
      Bool.false_eq_true, if_false]

/-- Witness for C6 on the four classifier-produced task types. -/
theorem C6_workflow_witness :
    build_workflow "twitter_lead" [] = [.analysis, .skill_execution, .hitl_approval,
      .mcp_execution, .audit_logging, .completion] ∧
    build_workflow "financial_task" [] = [.analysis, .skill_execution, .completion] ∧
    build_workflow "schedule_task" [] = [.analysis, .mcp_execution, .completion] ∧
    build_workflow "general_task" [] = [.analysis, .completion] :=
  ⟨(C6_workflow_by_task_type "twitter_lead" []).1 (by decide),
    (C6_workflow_by_task_type "financial_task" []).2.1 (by decide) (by decide),
    (C6_workflow_by_task_type "schedule_task" []).2.2.1 (by decide) (by decide) (by decide),
    (C6_workflow_by_task_type "general_task" []).2.2.2 (by decide) (by decide) (by decide)⟩

/-! ## Retry and backoff (claims C2, C4) -/

/-- Closed form of `retry_sync`'s loop on an always-failing operation,
started at attempt `a` with `r` further attempts allowed. -/
theorem retry_sync_go_fail {ε α : Type} (cfg : RecoveryConfig) (base : Nat) (e : Nat → ε) :
    ∀ (r a : Nat),
      retry_sync_go cfg base (fun i => (Except.error (e i) : Except ε α)) a r =
        ⟨Except.error (e (a + r)),
          (List.range' a r).map (fun i => min (base * cfg.exponential_base ^ i) cfg.max_delay),
          (List.range' a r).map (fun i => i + 1), []⟩ := by
  intro r
  induction r with
  | zero => intro a; simp [retry_sync_go]
  | succ r ih =>
      intro a
      rw [retry_sync_go]
      simp only [ih (a + 1), List.range'_succ, List.map_cons]
      have h : a + 1 + r = a + (r + 1) := by omega
      rw [h]

/-- Closed form of the watchers' `retry_with_backoff` loop on an
always-failing operation. -/
theorem retry_backoff_go_fail {ε α : Type} (comp fn : String) (base maxd : Nat)
    (e : Nat → ε) :
    ∀ (r a : Nat),
      retry_backoff_go comp fn base maxd (fun i => (Except.error (e i) : Except ε α)) a r =
        ⟨none, (List.range' a r).map (fun i => min (base * 2 ^ i) maxd),
          (List.range' a r).map (fun i => ⟨comp, fn, some (i + 1), false⟩) ++
            [⟨comp, fn, none, true⟩]⟩ := by
  intro r
  induction r with
  | zero => intro a; simp [retry_backoff_go]
  | succ r ih =>
      intro a
      rw [retry_backoff_go]
      simp only [ih (a + 1), List.range'_succ, List.map_cons, List.cons_append]


/-- C2 counterexample: `ErrorRecovery.retry_sync` with `max_retries = 3`,
`base_delay = 1` on an operation that fails every attempt performs the three
backoff sleeps (so three retry attempts happen), yet writes nothing at all to
the per-component error log — in particular no record with attempt number 1
exists, contradicting "every retry attempt is separately recorded to the
per-component error log". -/
theorem C2_retry_sync_logs_nothing :
    (retry_sync default_recovery 3 1
        (fun a => (Except.error (toString a) : Except String Nat))).sleeps = [1, 2, 4] ∧
    (retry_sync default_recovery 3 1
        (fun a => (Except.error (toString a) : Except String Nat))).error_log = [] ∧
    ¬ ∃ rec ∈ (retry_sync default_recovery 3 1
        (fun a => (Except.error (toString a) : Except String Nat))).error_log,
        rec.attempt = some 1 := by
  refine ⟨by decide, by decide, ?_⟩
  rintro ⟨rec, hmem, -⟩
  simp only [show (retry_sync default_recovery 3 1
      (fun a => (Except.error (toString a) : Except String Nat))).error_log = []
    from by decide] at hmem
  exact (List.not_mem_nil rec) hmem

/-- C2 amended: `retry_sync` records none of its retry attempts to the
per-component error log (its retry notices go to standard output only), while
the watchers' own `retry_with_backoff` helper does record every non-final
retry attempt via `ErrorRecovery.log_error` with attempt number
`attempt + 1` in its context, plus one final record marked `final` (without
an attempt number) when retries are exhausted. -/
theorem C2_retry_logging_amended (comp fn : String) (n base maxd : Nat) (e : Nat → String) :
    (retry_with_backoff comp fn n base maxd
        (fun a => (Except.error (e a) : Except String Nat))).error_log =
      (List.range n).map (fun a => ⟨comp, fn, some (a + 1), false⟩) ++
        [⟨comp, fn, none, true⟩] ∧
    (retry_sync default_recovery n base
        (fun a => (Except.error (e a) : Except String Nat))).error_log = [] := by
  constructor
  · rw [retry_with_backoff, retry_backoff_go_fail]
    simp [List.range_eq_range']
  · rw [retry_sync, retry_sync_go_fail]

/-- C4: for an operation failing on every attempt, `retry_sync` sleeps
exactly `min(base_delay * 2^a, max_delay)` before retry `a` (0-indexed), the
recorded delays for `base_delay = 1` equal `calculate_delay` and for
`max_retries = 3` are `[1, 2, 4]`, and after exhausting `max_retries` retries
the exception of the final ((max_retries+1)-th) attempt is re-raised to the
caller. -/
theorem C4_backoff_delays_and_reraise (mr base : Nat) (e : Nat → String) :
    (retry_sync default_recovery mr base
        (fun a => (Except.error (e a) : Except String Nat))).sleeps =
      (List.range mr).map (fun a => min (base * 2 ^ a) 60) ∧
    (retry_sync default_recovery mr base
        (fun a => (Except.error (e a) : Except String Nat))).result = Except.error (e mr) ∧
    (retry_sync default_recovery mr 1
        (fun a => (Except.error (e a) : Except String Nat))).sleeps =
      (List.range mr).map (calculate_delay default_recovery) ∧
    (retry_sync default_recovery 3 1
        (fun a => (Except.error (e a) : Except String Nat))).sleeps = [1, 2, 4] := by
  refine ⟨?_, ?_, ?_, ?_⟩
  · rw [retry_sync, retry_sync_go_fail]
    simp [default_recovery, List.range_eq_range']
  · rw [retry_sync, retry_sync_go_fail]
    simp
  · rw [retry_sync, retry_sync_go_fail]
    simp [default_recovery, calculate_delay, List.range_eq_range']
  · rw [retry_sync, retry_sync_go_fail]
    simp only [default_recovery]
    decide

/-! ## Frontmatter totality and quote stripping (claim C9) -/

/-- The head of a `dropWhile p` result never satisfies `p`. -/
theorem dropWhile_head_not {α : Type} (p : α → Bool) (l : List α) (c : α)
    (h : (l.dropWhile p).head? = some c) : p c = false := by
  induction l with
  | nil => simp [List.dropWhile] at h
  | cons a t ih =>
      rw [List.dropWhile_cons] at h
      by_cases hp : p a
      · rw [if_pos hp] at h
        exact ih h
      · rw [if_neg hp] at h
        simp only [List.head?_cons, Option.some.injEq] at h
        subst h
        exact Bool.not_eq_true _ ▸ hp

/-- A nonempty prefix starts with the same element as the longer list. -/
theorem prefix_head_eq {α : Type} {l₁ l₂ : List α} (h : l₁ <+: l₂) {c : α}
    (hc : l₁.head? = some c) : l₂.head? = some c := by
  obtain ⟨t, rfl⟩ := h
  cases l₁ with
  | nil => simp at hc
  | cons a l => simpa using hc

/-- `strip_quotes` output has no surrounding quotes. -/
theorem strip_quotes_no_quotes (s : String) :
    no_surrounding_quotes (strip_quotes s) = true := by
  have htl : (strip_quotes s).toList
      = ((s.toList.dropWhile is_quote).reverse.dropWhile is_quote).reverse := rfl
  have hpre : ((s.toList.dropWhile is_quote).reverse.dropWhile is_quote).reverse
      <+: s.toList.dropWhile is_quote := by
    refine List.reverse_suffix.mp ?_
    rw [List.reverse_reverse]
    exact List.dropWhile_suffix _
  rw [no_surrounding_quotes, Bool.and_eq_true]
  constructor
  · rw [htl]
    cases hh : ((s.toList.dropWhile is_quote).reverse.dropWhile is_quote).reverse.head? with
    | none => rfl
    | some c =>
        have h1 : (s.toList.dropWhile is_quote).head? = some c := prefix_head_eq hpre hh
        have h2 : is_quote c = false := dropWhile_head_not is_quote s.toList c h1
        simp [h2]
  · rw [htl]
    cases hh : ((s.toList.dropWhile is_quote).reverse.dropWhile is_quote).reverse.getLast? with
    | none => rfl
    | some c =>
        rw [List.getLast?_reverse] at hh
        have h2 : is_quote c = false :=
          dropWhile_head_not is_quote (s.toList.dropWhile is_quote).reverse c hh
        simp [h2]

/-- The line-folding step of `parse_frontmatter` preserves the invariant that
every stored value is quote-free. -/
theorem fold_lines_values (lines : List String) :
    ∀ (md : List (String × String)),
      (∀ kv ∈ md, no_surrounding_quotes kv.2 = true) →
      ∀ kv ∈ lines.foldl
          (fun md line =>
            match split_colon_1 line with
            | none => md
            | some (k, v) => dict_insert md (py_strip k) (strip_quotes (py_strip v)))
          md,
        no_surrounding_quotes kv.2 = true := by
  induction lines with
  | nil => intro md h kv hkv; exact h kv hkv
  | cons line rest ih =>
      intro md h kv hkv
      rw [List.foldl_cons] at hkv
      refine ih _ ?_ kv hkv
      cases hsp : split_colon_1 line with
      | none => simpa [hsp] using h
      | some pr =>
          obtain ⟨k, v⟩ := pr
          simp only [hsp]
          intro kv' hkv'
          rw [dict_insert] at hkv'
          by_cases hex : md.any (fun p => p.1 == py_strip k)
          · rw [if_pos hex] at hkv'
            obtain ⟨p, hp, hpeq⟩ := List.mem_map.mp hkv'
            by_cases hk : p.1 == py_strip k
            · rw [if_pos hk] at hpeq
              rw [← hpeq]
              exact strip_quotes_no_quotes _
            · rw [if_neg hk] at hpeq
              rw [← hpeq]
              exact h p hp
          · rw [if_neg hex] at hkv'
            rcases List.mem_append.mp hkv' with hin | hin
            · exact h kv' hin
            · rw [List.mem_singleton.mp hin]
              exact strip_quotes_no_quotes _

/-- C9: the frontmatter parser is total — in this embedding it is a
structurally recursive function defined on every input string (the Python
`try/except` cannot fire on these string operations), it returns the empty
dictionary whenever the input does not start with `---`, and every value it
stores has its surrounding single or double quotes stripped. -/
theorem C9_frontmatter_total (content : String) :
    (py_startswith content "---" = false → parse_frontmatter content = []) ∧
    (∀ kv ∈ parse_frontmatter content, no_surrounding_quotes kv.2 = true) := by
  constructor
  · intro h
    simp [parse_frontmatter, h]
  · intro kv hkv
    rw [parse_frontmatter] at hkv
    by_cases h : py_startswith content "---"
    · rw [if_pos h] at hkv
      exact fold_lines_values _ [] (by simp) kv hkv
    · rw [if_neg h] at hkv
      simp at hkv

/-- Witness for C9: a plain body parses to the empty dictionary, and a
quoted frontmatter value comes back with its quotes stripped. -/
theorem C9_frontmatter_witness :
    (py_startswith "plain body" "---" = false ∧ parse_frontmatter "plain body" = []) ∧
    (("type", "lead") ∈ parse_frontmatter "---\ntype: 'lead'\n---\nbody" ∧
      no_surrounding_quotes (("type", "lead") : String × String).2 = true) :=
  ⟨⟨by decide, (C9_frontmatter_total "plain body").1 (by decide)⟩,
    ⟨by decide,
      (C9_frontmatter_total "---\ntype: 'lead'\n---\nbody").2 ("type", "lead") (by decide)⟩⟩

/-! ## State machine monotonicity (claim C3) -/

/-- C3: across successive `execute_task` advances of one task item the stage
index given by `STAGES` never decreases, and for every live (non-terminal)
stage the only possible self-loop is `hitl_approval` while the item is
unapproved.  (`completion` is terminal: its handler moves the file to `Done`
and reports the task complete, so the driver makes no further advance call on
the item.) -/
theorem C3_stage_monotone (t : Task) (s : LoopState) :
    STAGES t.current_stage ≤ STAGES (execute_task t s).2.1.current_stage ∧
    (t.current_stage ≠ Stage.completion →
      ((execute_task t s).2.1.current_stage = t.current_stage ↔
        t.current_stage = Stage.hitl_approval ∧ check_approval_status s t = false)) := by
  obtain ⟨d, fn, tt, ms, wf, st, md⟩ := t
  cases st with
  | analysis =>
      refine ⟨by simp [execute_task, execute_analysis_stage, STAGES], fun _ => ?_⟩
      simp [execute_task, execute_analysis_stage]
  | skill_execution =>
      cases hsk : skills_to_trigger tt with
      | none =>
          refine ⟨by simp [execute_task, execute_skill_stage, hsk, STAGES], fun _ => ?_⟩
          simp [execute_task, execute_skill_stage, hsk]
      | some skill =>
          by_cases hd : check_draft_created
              (simulate_skill_execution s skill fn)
              ⟨d, fn, tt, ms, wf, Stage.skill_execution, md⟩ = true
          · refine ⟨by simp [execute_task, execute_skill_stage, hsk, hd, STAGES], fun _ => ?_⟩
            simp [execute_task, execute_skill_stage, hsk, hd]
          · refine ⟨by simp [execute_task, execute_skill_stage, hsk, hd, STAGES], fun _ => ?_⟩
            simp [execute_task, execute_skill_stage, hsk, hd]
  | hitl_approval =>
      by_cases hap : check_approval_status s ⟨d, fn, tt, ms, wf, Stage.hitl_approval, md⟩ = true
      · refine ⟨by simp [execute_task, execute_hitl_stage, hap, STAGES], fun _ => ?_⟩
        simp [execute_task, execute_hitl_stage, hap]
      · refine ⟨by simp [execute_task, execute_hitl_stage, hap, STAGES], fun _ => ?_⟩
        simp only [execute_task, execute_hitl_stage, if_neg hap]
        simp only [Bool.not_eq_true] at hap
        simp [hap]
  | mcp_execution =>
      refine ⟨by simp [execute_task, execute_mcp_stage, trigger_mcp, STAGES], fun _ => ?_⟩
      simp [execute_task, execute_mcp_stage, trigger_mcp]
  | audit_logging =>
      refine ⟨by simp [execute_task, execute_audit_stage, STAGES], fun _ => ?_⟩
      simp [execute_task, execute_audit_stage]
  | completion =>
      refine ⟨by simp [execute_task, execute_completion_stage, STAGES], fun h => ?_⟩
      exact absurd rfl h

/-- Witness for C3 at a concrete advance: an item at `hitl_approval` with an
empty `Approved` directory self-loops on `hitl_approval` exactly because it
is unapproved. -/
theorem C3_stage_monotone_witness :
    STAGES task1.current_stage ≤ STAGES (execute_task task1 stuck_state).2.1.current_stage ∧
    ((execute_task task1 stuck_state).2.1.current_stage = task1.current_stage ↔
      task1.current_stage = Stage.hitl_approval ∧
        check_approval_status stuck_state task1 = false) :=
  ⟨(C3_stage_monotone task1 stuck_state).1,
    (C3_stage_monotone task1 stuck_state).2 (by decide)⟩

/-! ## Audit append/query round-trip (claim C7) -/

/-- Folding `AuditLogger.log` calls for day `D` over a store appends exactly
the built entries to day `D`'s container. -/
theorem audit_fold_at (args : List LogArgs) (D : Nat) :
    ∀ st : AuditStore,
      (args.foldl (fun st a => audit_log st D a) st) D = st D ++ args.map (mk_entry D) := by
  induction args with
  | nil => intro st; simp
  | cons a as ih =>
      intro st
      rw [List.foldl_cons, ih]
      simp [audit_log]

/-- C7: appending `N` entries via `log` on calendar day `D` into an empty
store and then querying the range `[D, D]` returns exactly those `N` entries
— a permutation of the built entries, so every original field (timestamp,
date, action_type, actor, target, parameters, approval_status, result,
message) is intact — sorted by timestamp ascending. -/
theorem C7_audit_round_trip (args : List LogArgs) (D : Nat) :
    (get_logs_for_date_range (args.foldl (fun st a => audit_log st D a) empty_store) D D).Perm
        (args.map (mk_entry D)) ∧
    List.Sorted ts_le
      (get_logs_for_date_range (args.foldl (fun st a => audit_log st D a) empty_store) D D) ∧
    (get_logs_for_date_range
        (args.foldl (fun st a => audit_log st D a) empty_store) D D).length =
      args.length := by
  have hst : (args.foldl (fun st a => audit_log st D a) empty_store) D
      = args.map (mk_entry D) := by
    rw [audit_fold_at]
    simp [empty_store]
  have hq : get_logs_for_date_range
      (args.foldl (fun st a => audit_log st D a) empty_store) D D
      = List.insertionSort ts_le (args.map (mk_entry D)) := by
    rw [get_logs_for_date_range]
    have h1 : D + 1 - D = 1 := by omega
    rw [h1]
    simp [List.range_succ, hst]
  refine ⟨?_, ?_, ?_⟩
  · rw [hq]
    exact List.perm_insertionSort ts_le _
  · rw [hq]
    exact List.sorted_insertionSort ts_le _
  · rw [hq]
    rw [(List.perm_insertionSort ts_le _).length_eq, List.length_map]

/-! ## Loop scheduler completion predicate (claim C1)

Within one `run_iteration` pass the forced stages are only `analysis`,
`hitl_approval` and `mcp_execution`, and those three handlers never touch the
queue directories, so the post-pass directory contents equal the scan-time
contents; and every approved file, processed at `mcp_execution`, reports the
task incomplete, so a non-empty `Approved` scan forces `tasks_pending ≥ 1`. -/

/-- `task_analyzer` only appends an audit record: the directories are
untouched. -/
theorem task_analyzer_dirs (d : DirTag) (f : MFile) (s : LoopState) :
    (task_analyzer d f s).2.needs_action = s.needs_action ∧
    (task_analyzer d f s).2.pending_approval = s.pending_approval ∧
    (task_analyzer d f s).2.approved = s.approved :=
  ⟨rfl, rfl, rfl⟩

/-- `task_analyzer` does not touch the iteration counter. -/
theorem task_analyzer_iter (d : DirTag) (f : MFile) (s : LoopState) :
    (task_analyzer d f s).2.iteration_count = s.iteration_count := rfl

/-- The `analysis`, `hitl_approval` and `mcp_execution` handlers never touch
the queue directories. -/
theorem execute_task_dirs (t : Task) (s : LoopState)
    (h : t.current_stage = Stage.analysis ∨ t.current_stage = Stage.hitl_approval ∨
      t.current_stage = Stage.mcp_execution) :
    (execute_task t s).2.2.needs_action = s.needs_action ∧
    (execute_task t s).2.2.pending_approval = s.pending_approval ∧
    (execute_task t s).2.2.approved = s.approved := by
  rcases h with h | h | h
  · simp [execute_task, h, execute_analysis_stage, log_history]
  · simp only [execute_task, h, execute_hitl_stage]
    split <;> simp [log_history, log_audit]
  · simp [execute_task, h, execute_mcp_stage, trigger_mcp, log_history]

/-- `set_dir` does not touch the iteration counter. -/
theorem set_dir_iter (s : LoopState) (d : DirTag) (l : List MFile) :
    (set_dir s d l).iteration_count = s.iteration_count := by
  cases d <;> rfl

/-- `move_to_done` does not touch the iteration counter. -/
theorem move_to_done_iter (s : LoopState) (d : DirTag) (n : String) :
    (move_to_done s d n).iteration_count = s.iteration_count := by
  rw [move_to_done]
  cases hf : (dir_files s d).find? (fun f => f.name == n) with
  | none => rfl
  | some f => simp [set_dir_iter]

/-- `simulate_skill_execution` does not touch the iteration counter. -/
theorem simulate_iter (s : LoopState) (sk fn : String) :
    (simulate_skill_execution s sk fn).iteration_count = s.iteration_count := by
  rw [simulate_skill_execution]
  split <;> rfl

/-- No stage handler touches the iteration counter. -/
theorem execute_task_iter (t : Task) (s : LoopState) :
    (execute_task t s).2.2.iteration_count = s.iteration_count := by
  obtain ⟨d, fn, tt, ms, wf, st, md⟩ := t
  cases st with
  | analysis => rfl
  | skill_execution =>
      rw [execute_task]
      dsimp only
      rw [execute_skill_stage]
      cases hsk : skills_to_trigger tt with
      | none => rfl
      | some skill =>
          dsimp only
          split
          · simp [log_history, simulate_iter]
          · simp [simulate_iter]
  | hitl_approval =>
      rw [execute_task]
      dsimp only
      rw [execute_hitl_stage]
      split <;> simp [log_history, log_audit]
  | mcp_execution => rfl
  | audit_logging => rfl
  | completion =>
      simp [execute_task, execute_completion_stage, log_history, log_audit,
        move_to_done_iter]

/-- One `process_file` step preserves the directories when the forced stage
is one of the three scan stages. -/
theorem process_file_dirs (acc : Nat × LoopState) (it : DirTag × MFile × Stage)
    (h : it.2.2 = Stage.analysis ∨ it.2.2 = Stage.hitl_approval ∨
      it.2.2 = Stage.mcp_execution) :
    (process_file acc it).2.needs_action = acc.2.needs_action ∧
    (process_file acc it).2.pending_approval = acc.2.pending_approval ∧
    (process_file acc it).2.approved = acc.2.approved := by
  rw [process_file]
  dsimp only
  obtain ⟨e1, e2, e3⟩ := execute_task_dirs
    {(task_analyzer it.1 it.2.1 acc.2).1 with current_stage := it.2.2}
    (task_analyzer it.1 it.2.1 acc.2).2 (by simpa using h)
  obtain ⟨a1, a2, a3⟩ := task_analyzer_dirs it.1 it.2.1 acc.2
  exact ⟨e1.trans a1, e2.trans a2, e3.trans a3⟩

/-- One `process_file` step preserves the iteration counter. -/
theorem process_file_iter (acc : Nat × LoopState) (it : DirTag × MFile × Stage) :
    (process_file acc it).2.iteration_count = acc.2.iteration_count := by
  rw [process_file]
  dsimp only
  have he := execute_task_iter
    {(task_analyzer it.1 it.2.1 acc.2).1 with current_stage := it.2.2}
    (task_analyzer it.1 it.2.1 acc.2).2
  have ha := task_analyzer_iter it.1 it.2.1 acc.2
  exact he.trans ha

/-- `process_file` never decreases the pending counter. -/
theorem process_file_cnt_le (acc : Nat × LoopState) (it : DirTag × MFile × Stage) :
    acc.1 ≤ (process_file acc it).1 := by
  rw [process_file]
  dsimp only
  split
  · exact Nat.le_refl _
  · exact Nat.le_succ _

/-- A file forced to `mcp_execution` always counts as pending: its advance
reports the task incomplete. -/
theorem process_file_mcp_cnt (acc : Nat × LoopState) (d : DirTag) (f : MFile) :
    (process_file acc (d, f, Stage.mcp_execution)).1 = acc.1 + 1 := by
  rw [process_file]
  dsimp only
  have hfalse : (execute_task
      {(task_analyzer d f acc.2).1 with current_stage := Stage.mcp_execution}
      (task_analyzer d f acc.2).2).1 = false := by
    simp [execute_task, execute_mcp_stage, trigger_mcp]
  rw [hfalse]
  simp

/-- Folding `process_file` over scan-staged items preserves the
directories. -/
theorem foldl_process_dirs :
    ∀ (items : List (DirTag × MFile × Stage)) (acc : Nat × LoopState),
      (∀ it ∈ items, it.2.2 = Stage.analysis ∨ it.2.2 = Stage.hitl_approval ∨
        it.2.2 = Stage.mcp_execution) →
      (items.foldl process_file acc).2.needs_action = acc.2.needs_action ∧
      (items.foldl process_file acc).2.pending_approval = acc.2.pending_approval ∧
      (items.foldl process_file acc).2.approved = acc.2.approved := by
  intro items
  induction items with
  | nil => intro acc _; exact ⟨rfl, rfl, rfl⟩
  | cons it rest ih =>
      intro acc h
      rw [List.foldl_cons]
      obtain ⟨r1, r2, r3⟩ := ih (process_file acc it)
        (fun it' h' => h it' (List.mem_cons_of_mem _ h'))
      obtain ⟨p1, p2, p3⟩ := process_file_dirs acc it (h it (List.mem_cons_self it rest))
      exact ⟨r1.trans p1, r2.trans p2, r3.trans p3⟩

/-- Folding `process_file` preserves the iteration counter. -/
theorem foldl_process_iter :
    ∀ (items : List (DirTag × MFile × Stage)) (acc : Nat × LoopState),
      (items.foldl process_file acc).2.iteration_count = acc.2.iteration_count := by
  intro items
  induction items with
  | nil => intro acc; rfl
  | cons it rest ih =>
      intro acc
      rw [List.foldl_cons]
      exact (ih (process_file acc it)).trans (process_file_iter acc it)

/-- Folding `process_file` never decreases the pending counter. -/
theorem foldl_process_cnt_le :
    ∀ (items : List (DirTag × MFile × Stage)) (acc : Nat × LoopState),
      acc.1 ≤ (items.foldl process_file acc).1 := by
  intro items
  induction items with
  | nil => intro acc; exact Nat.le_refl _
  | cons it rest ih =>
      intro acc
      rw [List.foldl_cons]
      exact Nat.le_trans (process_file_cnt_le acc it) (ih (process_file acc it))

/-- C1: `run_iteration` declares the iteration complete exactly when no
processed item reported that it required further work (`tasks_pending = 0`)
and, after the pass, all three scanned locations — `Approved`,
`Pending_Approval` and `Needs_Action` — are empty.  (The code checks only the
latter two scans plus the counter; the `Approved` scan is forced empty
because every approved file processed at `mcp_execution` counts as
pending.) -/
theorem C1_iteration_complete_iff (s : LoopState) :
    (run_iteration_aux s).1 = true ↔
      ((run_iteration_aux s).2.1 = 0 ∧
        scan_approved (run_iteration_aux s).2.2 = [] ∧
        scan_pending_approval (run_iteration_aux s).2.2 = [] ∧
        scan_needs_action (run_iteration_aux s).2.2 = []) := by
  rw [run_iteration_aux]
  set s1 := {s with iteration_count := s.iteration_count + 1} with hs1
  by_cases hemp : (files_to_process s1).isEmpty = true
  · rw [if_pos hemp]
    dsimp only
    have hnil : files_to_process s1 = [] := List.isEmpty_iff.mp hemp
    rw [files_to_process] at hnil
    obtain ⟨hAB, hC⟩ := List.append_eq_nil.mp hnil
    obtain ⟨hA, hB⟩ := List.append_eq_nil.mp hAB
    rw [List.map_eq_nil_iff] at hA hB hC
    simp [hA, hB, hC]
  · rw [if_neg hemp]
    dsimp only
    have hmem : ∀ it ∈ files_to_process s1,
        it.2.2 = Stage.analysis ∨ it.2.2 = Stage.hitl_approval ∨
        it.2.2 = Stage.mcp_execution := by
      intro it hit
      rw [files_to_process] at hit
      rcases List.mem_append.mp hit with hAB | hC
      · rcases List.mem_append.mp hAB with hA | hB
        · obtain ⟨f, -, rfl⟩ := List.mem_map.mp hA
          right; right; rfl
        · obtain ⟨f, -, rfl⟩ := List.mem_map.mp hB
          right; left; rfl
      · obtain ⟨f, -, rfl⟩ := List.mem_map.mp hC
        left; rfl
    obtain ⟨e1, e2, e3⟩ := foldl_process_dirs (files_to_process s1) (0, s1) hmem
    have hsa : scan_approved ((files_to_process s1).foldl process_file (0, s1)).2
        = scan_approved s1 := by
      rw [scan_approved, scan_approved, e3]
    have hsp : scan_pending_approval ((files_to_process s1).foldl process_file (0, s1)).2
        = scan_pending_approval s1 := by
      rw [scan_pending_approval, scan_pending_approval, e2]
    have hsn : scan_needs_action ((files_to_process s1).foldl process_file (0, s1)).2
        = scan_needs_action s1 := by
      rw [scan_needs_action, scan_needs_action, e1]
    constructor
    · intro hall
      rw [Bool.and_eq_true, Bool.and_eq_true] at hall
      obtain ⟨⟨hc0, hn⟩, hp⟩ := hall
      have hc0' : ((files_to_process s1).foldl process_file (0, s1)).1 = 0 := by
        simpa using hc0
      refine ⟨hc0', ?_, List.isEmpty_iff.mp hp, List.isEmpty_iff.mp hn⟩
      rw [hsa]
      cases hA : scan_approved s1 with
      | nil => rfl
      | cons f0 A' =>
          exfalso
          have hone : (1 : Nat) ≤ ((files_to_process s1).foldl process_file (0, s1)).1 := by
            rw [files_to_process, hA, List.map_cons, List.cons_append, List.cons_append,
              List.foldl_cons]
            refine Nat.le_trans ?_ (foldl_process_cnt_le _ _)
            rw [process_file_mcp_cnt]
          omega
    · rintro ⟨hc0, hA, hp, hn⟩
      rw [hsp] at hp
      rw [hsn] at hn
      rw [Bool.and_eq_true, Bool.and_eq_true]
      refine ⟨⟨?_, ?_⟩, ?_⟩
      · simp [hc0]
      · rw [hsn, hn]
        rfl
      · rw [hsp, hp]
        rfl

/-! ## Iteration cap outcome (claim C8) -/

/-- Each `run_iteration` call increments the iteration counter exactly
once. -/
theorem run_iteration_count (s : LoopState) :
    (run_iteration s).2.iteration_count = s.iteration_count + 1 := by
  rw [run_iteration, run_iteration_aux]
  dsimp only
  by_cases hemp :
      (files_to_process {s with iteration_count := s.iteration_count + 1}).isEmpty = true
  · rw [if_pos hemp]
  · rw [if_neg hemp]
    exact foldl_process_iter _ _

/-- When no iteration completes, `run_steps` runs all `n` iterations. -/
theorem run_steps_partial :
    ∀ (n : Nat) (s : LoopState), (run_steps n s).1 = false →
      (run_steps n s).2.iteration_count = s.iteration_count + n := by
  intro n
  induction n with
  | zero => intro s _; rfl
  | succ n ih =>
      intro s h
      rw [run_steps] at h ⊢
      by_cases hc : (run_iteration s).1 = true
      · rw [if_pos hc] at h
        simp at h
      · rw [if_neg hc] at h ⊢
        rw [ih _ h, run_iteration_count]
        omega

/-- C8: when `run` reaches `max_iterations` without any iteration satisfying
the completion predicate (it returns `false`), this is a partial-success
outcome: an audit entry `ralph_loop_incomplete` with result `partial` is
recorded, exactly `max_iterations` iterations ran, and the CLI exits with the
nonzero status 1. -/
theorem C8_iteration_cap_partial (n : Nat) (pr : String) (s : LoopState)
    (h : (run n pr s).1 = false) :
    (∃ rec ∈ (run n pr s).2.audit,
        rec.action_type = "ralph_loop_incomplete" ∧ rec.result = "partial") ∧
    (run n pr s).2.iteration_count = s.iteration_count + n ∧
    main_exit_code (run n pr s).1 = 1 := by
  rw [run] at h ⊢
  by_cases hc : (run_steps n (log_audit s "ralph_loop_started" "ralph_loop_runner"
      "success" "Ralph Wiggum Loop started"
      [("max_iterations", toString n), ("prompt", pr)])).1 = true
  · rw [if_pos hc] at h
    simp at h
  · rw [if_neg hc] at h ⊢
    have hfalse : (run_steps n (log_audit s "ralph_loop_started" "ralph_loop_runner"
        "success" "Ralph Wiggum Loop started"
        [("max_iterations", toString n), ("prompt", pr)])).1 = false := by
      cases hrr : (run_steps n (log_audit s "ralph_loop_started" "ralph_loop_runner"
          "success" "Ralph Wiggum Loop started"
          [("max_iterations", toString n), ("prompt", pr)])).1
      · rfl
      · exact absurd hrr hc
    refine ⟨?_, ?_, rfl⟩
    · dsimp only [log_audit]
      exact ⟨_, List.mem_append_right _ (List.mem_singleton_self _), rfl, rfl⟩
    · have hcount := run_steps_partial n _ hfalse
      exact hcount

/-- Witness for C8: with `max_iterations = 1` and a single item stuck
awaiting HITL approval, `run` returns `false` after exactly one iteration,
the `partial` audit entry is recorded, and the exit code is 1. -/
theorem C8_iteration_cap_witness :
    (run 1 "Process all files" stuck_state).1 = false ∧
    ((∃ rec ∈ (run 1 "Process all files" stuck_state).2.audit,
        rec.action_type = "ralph_loop_incomplete" ∧ rec.result = "partial") ∧
      (run 1 "Process all files" stuck_state).2.iteration_count =
        stuck_state.iteration_count + 1 ∧
      main_exit_code (run 1 "Process all files" stuck_state).1 = 1) :=
  ⟨by decide, C8_iteration_cap_partial 1 "Process all files" stuck_state (by decide)⟩

end Ralph
